import Mathlib

/-!
Verification development for the `todo-cli` task tracker (`todo.py`).

The Python source is shallowly embedded below: the task-file parser
(`parse_task`), the comparator used for display ordering (`cmp_task`),
the directory walk shared by the scanner (`print_task`) and the id lookup
(`find_task_by_id`), the wide-character width helpers of the table
renderer, and the metadata template written by `add_task`.  Fallible
Python code (exceptions) is embedded with `Option`/`Except`.
-/

namespace TodoCli

/-- Modelled from the spec: values produced by `yaml.load` (the PyYAML
library is not part of this repository), restricted to the flat
key-value subset the spec describes: a value is null (empty), a pure
integer, or a plain string. -/
inductive YamlVal where
  | null : YamlVal
  | int (n : Nat) : YamlVal
  | str (s : String) : YamlVal
deriving DecidableEq

/-- The task record dictionary built by `parse_task` (and tagged with
`list` by `print_task`).  `priority`, `create`, `expire` keep the raw
YAML value (or are absent); `id`, `title`, `project` are the normalized
strings. -/
structure TaskR where
  id : String
  title : String
  project : String
  priority : Option YamlVal
  create : Option YamlVal
  expire : Option YamlVal
  description : String
  list : String
deriving DecidableEq

/-- The exceptions `parse_task` can raise: the repository's own
`ParseError`, and the Python built-ins `KeyError` (a required metadata
key is absent) and `TypeError` (the metadata block is not a mapping). -/
inductive PErr where
  | parseError : PErr
  | keyError (field : String) : PErr
  | typeError : PErr
deriving DecidableEq

instance {e a : Type} [DecidableEq e] [DecidableEq a] : DecidableEq (Except e a) := fun x y =>
  match x, y with
  | .ok v, .ok w =>
      if h : v = w then isTrue (by rw [h]) else isFalse (fun hc => h (Except.ok.inj hc))
  | .error v, .error w =>
      if h : v = w then isTrue (by rw [h]) else isFalse (fun hc => h (Except.error.inj hc))
  | .ok _, .error _ => isFalse (fun hc => Except.noConfusion hc)
  | .error _, .ok _ => isFalse (fun hc => Except.noConfusion hc)

/-- Decimal value of a digit string (how a pure-digit YAML scalar is read
as an integer). -/
def digitsToNat (l : List Char) : Nat :=
  l.foldl (fun a c => a * 10 + (c.toNat - 48)) 0

def digitChar : Nat → Char
  | 0 => '0' | 1 => '1' | 2 => '2' | 3 => '3' | 4 => '4'
  | 5 => '5' | 6 => '6' | 7 => '7' | 8 => '8' | 9 => '9'
  | _ => '0'

/-- Decimal digits of `n`, most significant first (Python `str` of an
`int`). -/
def natReprAux (n : Nat) (acc : List Char) : List Char :=
  if n < 10 then digitChar n :: acc
  else natReprAux (n / 10) (digitChar (n % 10) :: acc)
termination_by n
decreasing_by exact Nat.div_lt_self (by omega) (by omega)

def natRepr (n : Nat) : String := ⟨natReprAux n []⟩

def isBlankChar (c : Char) : Bool := c = ' ' ∨ c = '\t'

/-- Strip blanks from both ends (YAML plain-scalar trimming). -/
def stripChars (l : List Char) : List Char :=
  ((l.dropWhile isBlankChar).reverse.dropWhile isBlankChar).reverse

/-- Split a character list on a separator character. -/
def splitOnChar (sep : Char) (l : List Char) : List (List Char) :=
  l.foldr
    (fun c acc =>
      if c = sep then [] :: acc
      else
        match acc with
        | [] => [[c]]
        | a :: as => (c :: a) :: as)
    [[]]

/-- Modelled from the spec: YAML scalar resolution for the flat subset —
an empty value is null, a pure digit run is an integer, anything else is
the string itself. -/
def classify (v : List Char) : YamlVal :=
  if v = [] then .null
  else if v.all Char.isDigit then .int (digitsToNat v)
  else .str ⟨v⟩

/-- Break a line at its first colon. -/
def breakColon : List Char → Option (List Char × List Char)
  | [] => none
  | c :: rest =>
      if c = ':' then some ([], rest)
      else (breakColon rest).map (fun p => (c :: p.1, p.2))

/-- Modelled from the spec: one `key: value` line of the metadata block;
lines without a colon do not contribute a mapping entry. -/
def parseLine (l : List Char) : Option (String × YamlVal) :=
  match breakColon l with
  | none => none
  | some (k, v) => some (⟨stripChars k⟩, classify (stripChars v))

/-- Modelled from the spec: `yaml.load` on the metadata block, as the
flat key-value mapping the spec's YAML-subset describes. -/
def yamlLoad (meta : List Char) : List (String × YamlVal) :=
  (splitOnChar '\n' meta).filterMap parseLine

/-- Dictionary lookup (a later binding of the same key overrides an
earlier one, as in a Python dict built in line order). -/
def lookupLast (ps : List (String × YamlVal)) (k : String) : Option YamlVal :=
  ps.foldl (fun acc p => if p.1 = k then some p.2 else acc) none

/-- The normalization `parse_task` applies to `id` / `title` / `project`:
`None` becomes `''`, an `int` becomes its decimal string, a string passes
through. -/
def normVal : YamlVal → String
  | .null => ""
  | .int n => natRepr n
  | .str s => s

/-- Field access `meta[f]` plus normalization: an absent key raises
`KeyError f`. -/
def normField (ps : List (String × YamlVal)) (f : String) : Except PErr String :=
  match lookupLast ps f with
  | none => .error (.keyError f)
  | some v => .ok (normVal v)

/-- The search performed by the regex `(?sm)^---(?P<meta>.*?)^---` after
the leading `---`: lazily find the first line start followed by `---`;
return the meta group (up to and including that line break) and the rest
(the description group). -/
def findDelim : List Char → List Char → Option (List Char × List Char)
  | _, [] => none
  | acc, c :: rest =>
      if c = '\n' ∧ rest.take 3 = ['-', '-', '-'] then
        some (acc ++ [c], rest.drop 3)
      else
        findDelim (acc ++ [c]) rest

/-- The body of `parse_task` once the regex matched: YAML-load the meta
group, raise `TypeError` when the result is not a mapping, normalize
`id`, `title`, `project` (an absent key raises `KeyError`), and keep the
raw values of the other keys plus the description group. -/
def parse_meta (meta desc : List Char) : Except PErr TaskR :=
  let ps := yamlLoad meta
  if ps = [] then .error .typeError
  else do
    let i ← normField ps "id"
    let t ← normField ps "title"
    let p ← normField ps "project"
    .ok { id := i, title := t, project := p,
          priority := lookupLast ps "priority",
          create := lookupLast ps "create",
          expire := lookupLast ps "expire",
          description := ⟨desc⟩, list := "" }

/-- `parse_task` of `todo.py` on the file's content: match
`(?sm)^---(?P<meta>.*?)^---(?P<description>.*)` anchored at the start,
raise `ParseError` when it fails, and otherwise process the meta and
description groups. -/
def parse_task (content : String) : Except PErr TaskR :=
  match content.data with
  | '-' :: '-' :: '-' :: rest =>
      match findDelim [] rest with
      | none => .error .parseError
      | some (meta, desc) => parse_meta meta desc
  | _ => .error .parseError

/-! ## Dates (`datetime.strptime` with format `%Y-%m-%d %H:%M`) -/

def isLeap (y : Nat) : Bool := y % 4 = 0 ∧ (y % 100 ≠ 0 ∨ y % 400 = 0)

def daysInMonth (y m : Nat) : Nat :=
  if m = 2 then (if isLeap y then 29 else 28)
  else if m = 4 ∨ m = 6 ∨ m = 9 ∨ m = 11 then 30
  else 31

/-- Days of the proleptic Gregorian calendar elapsed before `y-m-d`,
counted from the civil era origin (an absolute day number; only
differences of these values are ever used, matching `datetime`
subtraction). -/
def civilDays (y m d : Nat) : Nat :=
  let y' := if m ≤ 2 then y - 1 else y
  let era := y' / 400
  let yoe := y' % 400
  let mp := (m + 9) % 12
  let doy := (153 * mp + 2) / 5 + d - 1
  let doe := yoe * 365 + yoe / 4 - yoe / 100 + doy
  era * 146097 + doe

/-- `datetime.strptime(s, '%Y-%m-%d %H:%M')` as an absolute minute count:
`none` models the `ValueError` the call raises on input not matching the
format (year of exactly four digits and at least 1, month 1-12 and day,
hour, minute of one or two digits within range, day valid for the
month). -/
def strptimeMin (s : String) : Option Nat :=
  match splitOnChar ' ' s.data with
  | [dp, tp] =>
      match splitOnChar '-' dp, splitOnChar ':' tp with
      | [ys, ms, ds], [hs, mis] =>
          if ys.length = 4 ∧ ys.all Char.isDigit ∧
             (1 ≤ ms.length ∧ ms.length ≤ 2) ∧ ms.all Char.isDigit ∧
             (1 ≤ ds.length ∧ ds.length ≤ 2) ∧ ds.all Char.isDigit ∧
             (1 ≤ hs.length ∧ hs.length ≤ 2) ∧ hs.all Char.isDigit ∧
             (1 ≤ mis.length ∧ mis.length ≤ 2) ∧ mis.all Char.isDigit then
            let y := digitsToNat ys
            let mo := digitsToNat ms
            let d := digitsToNat ds
            let h := digitsToNat hs
            let mi := digitsToNat mis
            if 1 ≤ y ∧ 1 ≤ mo ∧ mo ≤ 12 ∧ 1 ≤ d ∧ d ≤ daysInMonth y mo ∧
               h ≤ 23 ∧ mi ≤ 59 then
              some (civilDays y mo d * 1440 + h * 60 + mi)
            else none
          else none
      | _, _ => none
  | _ => none

/-! ## Ordering (`cmp_task`) -/

/-- The sentinel used for a missing expiry. -/
def sentinel : String := "2100-01-01 00:00"

/-- `task.get('expire') or '2100-01-01 00:00'` on the raw YAML value:
an absent key, a null, an empty string (all falsy, as is the integer 0)
give the sentinel; a non-zero integer would make the later `strptime`
raise `TypeError`, modelled as `none`. -/
def expireStr : Option YamlVal → Option String
  | none => some sentinel
  | some .null => some sentinel
  | some (.str s) => some (if s = "" then sentinel else s)
  | some (.int n) => if n = 0 then some sentinel else none

/-- `cmp_task` of `todo.py`: positive means the first task sorts later in
ascending order, hence earlier (more urgent) in the reversed display
order.  `none` models the uncaught exceptions of the Python code
(`ValueError` from `strptime`, `KeyError`/`TypeError` on `priority`). -/
def cmp_task (a b : TaskR) : Option Int :=
  if a.list ≠ b.list then
    if a.list = "today" then some 1 else some (-1)
  else if a.expire ≠ b.expire then
    match expireStr a.expire, expireStr b.expire with
    | some ea, some eb =>
        match strptimeMin ea, strptimeMin eb with
        | some ta, some tb => some (((tb : Int) - (ta : Int)) * 60)
        | _, _ => none
    | _, _ => none
  else
    match a.priority, b.priority with
    | some (.int p), some (.int q) => some ((p : Int) - (q : Int))
    | _, _ => none

/-- Insert into an already sorted (display-ordered) list:
`x` goes before the first element it does not compare strictly below,
which is `sorted(tasks, cmp_task, reverse=True)` — descending by
`cmp_task` and stable for exact ties. -/
def insertTask (x : TaskR) : List TaskR → Option (List TaskR)
  | [] => some [x]
  | y :: ys =>
      match cmp_task x y with
      | none => none
      | some c =>
          if 0 ≤ c then some (x :: y :: ys)
          else (insertTask x ys).map (y :: ·)

/-- `sorted(tasks, cmp_task, reverse=True)`: the final display order,
most urgent first.  `none` models an exception escaping a comparison. -/
def sortTasks : List TaskR → Option (List TaskR)
  | [] => some []
  | x :: xs =>
      match sortTasks xs with
      | none => none
      | some s => insertTask x s

/-- A task ranks more urgent than another when the comparator puts it
strictly above: it is displayed first. -/
def moreUrgent (a b : TaskR) : Prop := ∃ c, cmp_task a b = some c ∧ 0 < c

/-! ## Table renderer widths (`wide_chars`, `pretty_print_task_list`) -/

/-- Modelled from the spec: `unicodedata.east_asian_width c == 'W'` (the
`unicodedata` library is not part of this repository); covers the main
East-Asian Wide blocks (CJK, Hiragana/Katakana, Hangul, wide
punctuation). -/
def eastAsianWideW (c : Char) : Bool :=
  let n := c.toNat
  (0x1100 ≤ n ∧ n ≤ 0x115F) ∨
  (0x2E80 ≤ n ∧ n ≤ 0x303E) ∨
  (0x3041 ≤ n ∧ n ≤ 0x33FF) ∨
  (0x3400 ≤ n ∧ n ≤ 0x4DBF) ∨
  (0x4E00 ≤ n ∧ n ≤ 0x9FFF) ∨
  (0xA000 ≤ n ∧ n ≤ 0xA4CF) ∨
  (0xAC00 ≤ n ∧ n ≤ 0xD7A3) ∨
  (0xF900 ≤ n ∧ n ≤ 0xFAFF) ∨
  (0xFE30 ≤ n ∧ n ≤ 0xFE4F)

/-- `wide_chars` of `todo.py`: the number of characters of the string
classified as East-Asian Wide (the extra display width). -/
def wide_chars (s : String) : Nat :=
  s.data.foldl (fun n c => n + (if eastAsianWideW c then 1 else 0)) 0

/-- `max([len('title')] + [len(t['title']) + wide_chars(t['title']) for t in tasks])`. -/
def titleMaxWidth (tasks : List TaskR) : Nat :=
  ("title".length :: tasks.map (fun t => t.title.length + wide_chars t.title)).foldr max 0

/-- `max([len('project')] + [len(t['project']) + wide_chars(t['project']) for t in tasks])`. -/
def projectMaxWidth (tasks : List TaskR) : Nat :=
  ("project".length :: tasks.map (fun t => t.project.length + wide_chars t.project)).foldr max 0

/-- The `fmt_spec` table of `pretty_print_task_list`: column name,
alignment specifier, width. -/
def fmt_spec (tm pm : Nat) (verbose : Bool) : List (String × Char × Nat) :=
  [("", '^', 3), ("id", '<', 7), ("title", '<', tm + 1),
   ("priority", '<', 9), ("project", '<', pm + 1)] ++
  (if verbose then [("create", '<', 17), ("expire", '<', 17)] else [])

/-- The per-row format widths: the `title` cell's width is reduced by the
number of wide characters of that row's title; all other cells keep the
header width. -/
def rowWidths (spec : List (String × Char × Nat)) (t : TaskR) : List Nat :=
  spec.map (fun e => if e.1 = "title" then e.2.2 - wide_chars t.title else e.2.2)

/-! ## Filesystem model, directory walk, scanner, id lookup -/

/-- A directory listing: an ordered sequence of entries, each a file
(with content) or a subdirectory (with its own listing).  A plain
(non-nested) inductive so that all traversals are structural. -/
inductive FST where
  | nil : FST
  | file (name content : String) (rest : FST) : FST
  | dir (name : String) (sub rest : FST) : FST

/-- `f.startswith(".")`. -/
def hiddenName (s : String) : Bool :=
  match s.data with
  | [] => false
  | c :: _ => c = '.'

/-- The `files` component `os.walk` yields for one directory. -/
def allFiles : FST → List (String × String)
  | .nil => []
  | .file n c rest => (n, c) :: allFiles rest
  | .dir _ _ rest => allFiles rest

/-- The `dirs` component `os.walk` yields for one directory. -/
def allDirs : FST → List (String × FST)
  | .nil => []
  | .file _ _ rest => allDirs rest
  | .dir n sub rest => (n, sub) :: allDirs rest

/-- The recursive part of the `os.walk` loop of `print_task` /
`find_task_by_id`: descend into every subdirectory surviving
`dirs[:] = [d for d in dirs if not d.startswith(".")]`, and inside each,
list the files surviving `files = [f for f in files if not
f.startswith(".")]` before recursing further (the walk of the
subdirectory is inlined here to keep the recursion structural).  Each
result is (path components below the start directory, file name, file
content). -/
def walkDirs : FST → List (List String × String × String)
  | .nil => []
  | .file _ _ rest => walkDirs rest
  | .dir n sub rest =>
      (if hiddenName n then ([] : List (List String × String × String)) else
        (((allFiles sub).filter (fun p => ! hiddenName p.1)).map
            (fun p => (([] : List String), p.1, p.2)) ++
          walkDirs sub).map (fun t => (n :: t.1, t.2))) ++
      walkDirs rest

/-- The full `os.walk` loop with the in-loop hidden-entry filtering: the
visible files of the start directory, then the walks of its visible
subdirectories. -/
def walkList (t : FST) : List (List String × String × String) :=
  ((allFiles t).filter (fun p => ! hiddenName p.1)).map
    (fun p => (([] : List String), p.1, p.2)) ++
  walkDirs t

/-- `os.path.join(settings['task_dir'], name)` followed by `os.walk`:
the listing of the subdirectory of the task root with that name, or
nothing when it does not exist. -/
def stateEntries (root : FST) (name : String) : FST :=
  match List.lookup name (allDirs root) with
  | some t => t
  | none => .nil

/-- The walk of one state directory, paths made absolute under the state
name. -/
def walkState (root : FST) (name : String) :
    List (List String × String × String) :=
  (walkList (stateEntries root name)).map (fun t => (name :: t.1, t.2))

/-- `find_task_by_id` of `todo.py`: walk `todo` then `today`; every
directory containing `<id>.txt` overwrites `task_file`; the function
returns whatever the variable last held (or `None`). -/
def find_task_by_id (root : FST) (task_id : String) :
    Option (List String) :=
  (walkState root "todo" ++ walkState root "today").foldl
    (fun acc t =>
      if t.2.1 = task_id ++ ".txt" then some (t.1 ++ [task_id ++ ".txt"])
      else acc)
    none

/-- All the paths `find_task_by_id`'s loop matches, in walk order. -/
def findHits (root : FST) (task_id : String) : List (List String) :=
  ((walkState root "todo" ++ walkState root "today").filter
    (fun t => t.2.1 = task_id ++ ".txt")).map
    (fun t => t.1 ++ [task_id ++ ".txt"])

/-- The per-file loop body of `print_task` over the walked files of one
state: parse each file, tag it with the state, append it; a `ParseError`
is reported and the file skipped; any other exception propagates. -/
def scanFiles (tag : String) :
    List (List String × String × String) → List TaskR → Except PErr (List TaskR)
  | [], acc => .ok acc
  | (_, _, c) :: rest, acc =>
      match parse_task c with
      | .ok t => scanFiles tag rest (acc ++ [{ t with list := tag }])
      | .error .parseError => scanFiles tag rest acc
      | .error e => .error e

/-- The scanning phase of `print_task`: collect the tasks of `todo` then
`today`; an uncaught exception aborts the whole scan. -/
def scanTasks (root : FST) : Except PErr (List TaskR) := do
  let a ← scanFiles "todo" (walkState root "todo") []
  scanFiles "today" (walkState root "today") a

/-! ## The `add_task` metadata template -/

/-- The metadata text `add_task` writes:
`'\n'.join(['---', 'title: …', …, '---']) + '\n\n\n'`. -/
def add_task_meta (title project : String) (priority : Nat)
    (create expire task_id : String) : String :=
  "---\n" ++
  "title: " ++ title ++ "\n" ++
  "project: " ++ project ++ "\n" ++
  "priority: " ++ natRepr priority ++ "\n" ++
  "create: " ++ create ++ "\n" ++
  "expire: " ++ expire ++ "\n" ++
  "id: " ++ task_id ++ "\n" ++
  "---" ++ "\n\n\n"

/-! ## Concrete records used in counterexamples and witnesses -/

/-- Record A of the spec's ordering test: `today`, expire 2024-01-01,
priority 2. -/
def taskA : TaskR :=
  { id := "a", title := "A", project := "", priority := some (.int 2),
    create := some (.str "2024-01-01 00:00"),
    expire := some (.str "2024-01-01 00:00"),
    description := "", list := "today" }

/-- Record B of the spec's ordering test: `today`, expire 2024-01-01,
priority 1. -/
def taskB : TaskR := { taskA with id := "b", title := "B", priority := some (.int 1) }

/-- Record C of the spec's ordering test: `todo`, expire absent,
priority 1. -/
def taskC : TaskR :=
  { id := "c", title := "C", project := "", priority := some (.int 1),
    create := some (.str "2024-01-01 00:00"), expire := some .null,
    description := "", list := "todo" }

/-- Like A but expiring a year earlier. -/
def taskD : TaskR := { taskA with id := "d", expire := some (.str "2023-01-01 00:00") }

/-- Like A but without an expiry. -/
def taskE : TaskR := { taskA with id := "e", expire := some .null }

/-! ## C1 — priority tie-break direction -/

/-- C1 counterexample: for the spec's three records A (`today`, expire
2024-01-01, priority 2), B (`today`, expire 2024-01-01, priority 1),
C (`todo`, no expire, priority 1), the displayed order produced by
`sorted(tasks, cmp_task, reverse=True)` is A, B, C — not the claimed
B, A, C: within the same state and expiry the *higher* numeric priority
is displayed first. -/
theorem c1_priority_order_counterexample :
    sortTasks [taskA, taskB, taskC] = some [taskA, taskB, taskC] ∧
    sortTasks [taskA, taskB, taskC] ≠ some [taskB, taskA, taskC] := by
  decide

/-- C1 amended: among tasks with the same state and the same expiry
value, the one with the *higher* numeric priority value ranks more
urgent (`cmp_task` returns the signed difference `a - b` and the display
order is descending). -/
theorem c1_higher_priority_more_urgent (a b : TaskR) (p q : Nat)
    (hl : a.list = b.list) (he : a.expire = b.expire)
    (hp : a.priority = some (.int p)) (hq : b.priority = some (.int q))
    (hlt : q < p) : moreUrgent a b := by
  refine ⟨(p : Int) - (q : Int), ?_, by omega⟩
  simp [cmp_task, hl, he, hp, hq]

/-- C1 amended, witness: A (priority 2) ranks more urgent than B
(priority 1) in the same state with the same expiry. -/
theorem c1_higher_priority_more_urgent_witness : moreUrgent taskA taskB :=
  c1_higher_priority_more_urgent taskA taskB 2 1 rfl rfl rfl rfl (by decide)

/-! ## C2 — state precedence, expiry recency, missing-expiry sentinel -/

/-- C2: (i) a task in `today` ranks more urgent than a task in `todo`
whatever the other fields; (ii) with equal states, the task whose expiry
timestamp parses strictly earlier ranks more urgent; (iii) with equal
states, a task with a concrete expiry parsing before the year-2100
sentinel ranks more urgent than a task with no expiry (absent or null). -/
theorem c2_state_expiry_ordering (a b : TaskR) :
    (a.list = "today" → b.list = "todo" → moreUrgent a b) ∧
    (a.list = b.list →
      ∀ sa sb ta tb, a.expire = some (.str sa) → b.expire = some (.str sb) →
        strptimeMin sa = some ta → strptimeMin sb = some tb → ta < tb →
        moreUrgent a b) ∧
    (a.list = b.list →
      ∀ s t ts, a.expire = some (.str s) →
        (b.expire = none ∨ b.expire = some .null) →
        strptimeMin s = some t → strptimeMin sentinel = some ts → t < ts →
        moreUrgent a b) := by
  refine ⟨?_, ?_, ?_⟩
  · intro ha hb
    exact ⟨1, by simp [cmp_task, ha, hb], one_pos⟩
  · intro hl sa sb ta tb hea heb hta htb hlt
    have hss : sa ≠ sb := by
      intro h
      rw [h, htb] at hta
      injection hta with h2
      omega
    have hsa : sa ≠ "" := by
      intro h
      rw [h, show strptimeMin "" = none from by decide] at hta
      exact Option.noConfusion hta
    have hsb : sb ≠ "" := by
      intro h
      rw [h, show strptimeMin "" = none from by decide] at htb
      exact Option.noConfusion htb
    refine ⟨((tb : Int) - (ta : Int)) * 60, ?_, by omega⟩
    simp [cmp_task, hl, hea, heb, hss, expireStr, hsa, hsb, hta, htb]
  · intro hl s t ts hea heb hts htss hlt
    have hs : s ≠ "" := by
      intro h
      rw [h, show strptimeMin "" = none from by decide] at hts
      exact Option.noConfusion hts
    refine ⟨((ts : Int) - (t : Int)) * 60, ?_, by omega⟩
    rcases heb with h | h <;>
      simp [cmp_task, hl, hea, h, expireStr, hs, hts, htss]

/-- C2 witness: (i) A (`today`) beats C (`todo`); (ii) D (expire
2023-01-01) beats A (expire 2024-01-01); (iii) A (expire 2024-01-01)
beats E (no expiry). -/
theorem c2_state_expiry_ordering_witness :
    moreUrgent taskA taskC ∧ moreUrgent taskD taskA ∧ moreUrgent taskA taskE :=
  ⟨(c2_state_expiry_ordering taskA taskC).1 rfl rfl,
   (c2_state_expiry_ordering taskD taskA).2.1 rfl
     "2023-01-01 00:00" "2024-01-01 00:00" 1063909440 1064435040
     rfl rfl (by decide) (by decide) (by decide),
   (c2_state_expiry_ordering taskA taskE).2.2 rfl
     "2024-01-01 00:00" 1064435040 1104408000 rfl (Or.inr rfl)
     (by decide) (by decide) (by decide)⟩

/-! ## C6 — id lookup returns the last hit of the walk -/

theorem getLast?_cons_or {α : Type} (a : α) (l : List α) :
    (a :: l).getLast? = l.getLast?.or (some a) := by
  induction l generalizing a with
  | nil => rfl
  | cons b l ih =>
      rw [List.getLast?_cons_cons, ih b]
      cases l.getLast? <;> rfl

/-- A tree with the same id under both `todo` and `today`. -/
def rootDup : FST :=
  .dir "todo" (.file "x.txt" "a" .nil) (.dir "today" (.file "x.txt" "b" .nil) .nil)

/-- C6 counterexample: when `x.txt` exists under both `todo` and `today`,
the walk finds the `todo` copy first, but `find_task_by_id` returns the
`today` copy — the loop never breaks, so the *last* hit wins, not the
first. -/
theorem c6_first_found_counterexample :
    find_task_by_id rootDup "x" = some ["today", "x.txt"] ∧
    (findHits rootDup "x").head? = some ["todo", "x.txt"] ∧
    (["todo", "x.txt"] : List String) ≠ ["today", "x.txt"] := by
  decide

/-- The overwrite-fold of `find_task_by_id` keeps the final hit. -/
theorem find_hits_getLast (root : FST) (tid : String) :
    find_task_by_id root tid = (findHits root tid).getLast? := by
  unfold find_task_by_id findHits
  generalize (walkState root "todo" ++ walkState root "today") = ws
  have h : ∀ (l : List (List String × String × String)) (acc : Option (List String)),
      l.foldl (fun acc t => if t.2.1 = tid ++ ".txt" then some (t.1 ++ [tid ++ ".txt"]) else acc) acc
        = (((l.filter (fun t => t.2.1 = tid ++ ".txt")).map
            (fun t => t.1 ++ [tid ++ ".txt"])).getLast?).or acc := by
    intro l
    induction l with
    | nil => intro acc; simp
    | cons t l ih =>
        intro acc
        by_cases h : t.2.1 = tid ++ ".txt"
        · rw [List.foldl_cons, if_pos h, ih, List.filter_cons_of_pos (by simpa using h),
            List.map_cons, getLast?_cons_or, Option.or_assoc]
          cases ((l.filter (fun t => t.2.1 = tid ++ ".txt")).map
            (fun t => t.1 ++ [tid ++ ".txt"])).getLast? <;> rfl
        · rw [List.foldl_cons, if_neg h, ih, List.filter_cons_of_neg (by simpa using h)]
  rw [h ws none]
  cases ((ws.filter (fun t => t.2.1 = tid ++ ".txt")).map
    (fun t => t.1 ++ [tid ++ ".txt"])).getLast? <;> rfl

/-- C6 amended: the lookup walks recursively under `todo` then `today`
for `<id>.txt` and returns the deterministic *last* path the walk finds
(in particular `none` exactly when no such file exists; with the id under
both states the `today` copy, found later, is returned). -/
theorem c6_find_returns_last_hit (root : FST) (tid : String) :
    find_task_by_id root tid = (findHits root tid).getLast? :=
  find_hits_getLast root tid

/-! ## C10 — hidden files and directories are excluded everywhere -/

theorem walkDirs_hidden (t : FST) :
    ∀ e ∈ walkDirs t, (∀ c ∈ e.1, hiddenName c = false) ∧ hiddenName e.2.1 = false := by
  induction t with
  | nil => intro e he; simp [walkDirs] at he
  | file n c rest ih => intro e he; simp only [walkDirs] at he; exact ih e he
  | dir n sub rest ihsub ihrest =>
      intro e he
      simp only [walkDirs, List.mem_append] at he
      rcases he with he | he
      · by_cases hn : hiddenName n
        · rw [if_pos hn] at he; simp at he
        · rw [if_neg hn] at he
          simp only [List.mem_map, List.mem_append] at he
          obtain ⟨t', ht', rfl⟩ := he
          rcases ht' with ht' | ht'
          · simp only [List.mem_map, List.mem_filter] at ht'
            obtain ⟨p, hp, rfl⟩ := ht'
            refine ⟨?_, ?_⟩
            · intro c hc
              simp only [List.mem_cons, List.not_mem_nil, or_false] at hc
              subst hc
              simpa using hn
            · simpa using hp.2
          · obtain ⟨hpath, hname⟩ := ihsub t' ht'
            refine ⟨?_, hname⟩
            intro c hc
            simp only [List.mem_cons] at hc
            rcases hc with rfl | hc
            · simpa using hn
            · exact hpath c hc
      · exact ihrest e he

theorem walkList_hidden (t : FST) :
    ∀ e ∈ walkList t, (∀ c ∈ e.1, hiddenName c = false) ∧ hiddenName e.2.1 = false := by
  intro e he
  simp only [walkList, List.mem_append] at he
  rcases he with he | he
  · simp only [List.mem_map, List.mem_filter] at he
    obtain ⟨p, hp, rfl⟩ := he
    exact ⟨by intro c hc; simp at hc, by simpa using hp.2⟩
  · exact walkDirs_hidden t e he

/-- C10: no walked result (hence no scanned task file and no id-lookup
match) has a hidden file name or lies below a hidden directory, and
every path `find_task_by_id` returns consists of non-hidden components
only. -/
theorem c10_hidden_never_appears :
    (∀ (t : FST) (e : List String × String × String), e ∈ walkList t →
      (∀ c ∈ e.1, hiddenName c = false) ∧ hiddenName e.2.1 = false) ∧
    (∀ (root : FST) (tid : String) (p : List String),
      find_task_by_id root tid = some p → ∀ c ∈ p, hiddenName c = false) := by
  constructor
  · exact fun t e he => walkList_hidden t e he
  · intro root tid p hfind c hc
    rw [find_hits_getLast] at hfind
    have hp : p ∈ findHits root tid := by
      obtain ⟨hne, rfl⟩ := List.mem_getLast?_eq_getLast (Option.mem_def.mpr hfind)
      exact List.getLast_mem hne
    unfold findHits at hp
    simp only [List.mem_map, List.mem_filter, List.mem_append] at hp
    obtain ⟨t, ⟨ht, hfn⟩, rfl⟩ := hp
    have hstate : ∀ nm, t ∈ walkState root nm → hiddenName nm = false →
        ∀ c ∈ t.1 ++ [tid ++ ".txt"], hiddenName c = false := by
      intro nm htw hnm c hc
      unfold walkState at htw
      simp only [List.mem_map] at htw
      obtain ⟨u, hu, rfl⟩ := htw
      obtain ⟨hupath, huname⟩ := walkList_hidden _ u hu
      have hc' : c = nm ∨ c ∈ u.1 ∨ c = tid ++ ".txt" := by
        simpa [List.mem_append, List.mem_cons, or_assoc] using hc
      rcases hc' with rfl | hc' | rfl
      · exact hnm
      · exact hupath c hc'
      · have : u.2.1 = tid ++ ".txt" := by simpa using hfn
        rw [← this]
        exact huname
    rcases ht with ht | ht
    · exact hstate "todo" ht (by decide) c hc
    · exact hstate "today" ht (by decide) c hc

/-- A small tree with one visible file inside a visible directory and a
hidden file at top level. -/
def treeW : FST := .dir "sub" (.file "n.txt" "x" .nil) (.file ".h" "y" .nil)

/-- C10 witness: a concrete walked entry has only non-hidden components,
and a concrete id-lookup result has only non-hidden components. -/
theorem c10_hidden_never_appears_witness :
    ((∀ c ∈ (["sub"] : List String), hiddenName c = false) ∧ hiddenName "n.txt" = false) ∧
    (∀ c ∈ (["today", "x.txt"] : List String), hiddenName c = false) :=
  ⟨c10_hidden_never_appears.1 treeW (["sub"], "n.txt", "x") (by decide),
   c10_hidden_never_appears.2 rootDup "x" ["today", "x.txt"] (by decide)⟩

/-! ## Character-level helper lemmas for the parser proofs -/

theorem strMk_data (s : String) : String.mk s.data = s := by cases s; rfl

theorem digitsToNat_append (l : List Char) (c : Char) :
    digitsToNat (l ++ [c]) = digitsToNat l * 10 + (c.toNat - 48) := by
  simp [digitsToNat, List.foldl_append]

theorem digitChar_isDigit {d : Nat} (h : d < 10) : (digitChar d).isDigit = true := by
  interval_cases d <;> decide

theorem digitChar_toNat {d : Nat} (h : d < 10) : (digitChar d).toNat - 48 = d := by
  interval_cases d <;> decide

theorem natReprAux_eq_append (n : Nat) (acc : List Char) :
    natReprAux n acc = natReprAux n [] ++ acc := by
  induction n using Nat.strong_induction_on generalizing acc with
  | _ n ih =>
      by_cases h : n < 10
      · rw [natReprAux, if_pos h, natReprAux, if_pos h]; rfl
      · rw [natReprAux, if_neg h]
        conv_rhs => rw [natReprAux, if_neg h]
        rw [ih (n / 10) (Nat.div_lt_self (by omega) (by omega)) (digitChar (n % 10) :: acc),
          ih (n / 10) (Nat.div_lt_self (by omega) (by omega)) [digitChar (n % 10)]]
        simp

theorem natRepr_ne_nil (n : Nat) : (natRepr n).data ≠ [] := by
  show natReprAux n [] ≠ []
  by_cases h : n < 10
  · rw [natReprAux, if_pos h]; simp
  · rw [natReprAux, if_neg h, natReprAux_eq_append]; simp

theorem natRepr_all_digit (n : Nat) : (natRepr n).data.all Char.isDigit = true := by
  show (natReprAux n []).all Char.isDigit = true
  induction n using Nat.strong_induction_on with
  | _ n ih =>
      by_cases h : n < 10
      · rw [natReprAux, if_pos h]
        simp [digitChar_isDigit h]
      · rw [natReprAux, if_neg h, natReprAux_eq_append,
          List.all_append]
        refine Bool.and_eq_true_iff.mpr ⟨ih (n / 10) (Nat.div_lt_self (by omega) (by omega)), ?_⟩
        simp [digitChar_isDigit (Nat.mod_lt n (by omega))]

theorem digitsToNat_natRepr (n : Nat) : digitsToNat (natRepr n).data = n := by
  show digitsToNat (natReprAux n []) = n
  induction n using Nat.strong_induction_on with
  | _ n ih =>
      by_cases h : n < 10
      · rw [natReprAux, if_pos h]
        show 0 * 10 + ((digitChar n).toNat - 48) = n
        rw [digitChar_toNat h]; omega
      · rw [natReprAux, if_neg h, natReprAux_eq_append, digitsToNat_append,
          ih (n / 10) (Nat.div_lt_self (by omega) (by omega)),
          digitChar_toNat (Nat.mod_lt n (by omega))]
        omega

theorem dropWhile_all_false (p : Char → Bool) :
    ∀ l : List Char, (∀ c ∈ l, p c = false) → l.dropWhile p = l
  | [], _ => rfl
  | c :: l, h => by
      rw [List.dropWhile_cons_of_neg (by simp [h c (List.mem_cons_self c l)])]

theorem stripChars_nonblank (l : List Char) (h : ∀ c ∈ l, isBlankChar c = false) :
    stripChars l = l := by
  unfold stripChars
  rw [dropWhile_all_false _ l h, dropWhile_all_false, List.reverse_reverse]
  intro c hc
  exact h c (List.mem_reverse.mp hc)

theorem stripChars_cons_blank (c : Char) (l : List Char) (h : isBlankChar c = true) :
    stripChars (c :: l) = stripChars l := by
  unfold stripChars
  rw [List.dropWhile_cons_of_pos h]

/-! ### `findDelim` stepping lemmas -/

theorem findDelim_no_nl (l : List Char) (h : ∀ c ∈ l, c ≠ '\n') :
    ∀ (acc rest : List Char), findDelim acc (l ++ rest) = findDelim (acc ++ l) rest := by
  induction l with
  | nil => intro acc rest; simp
  | cons c l ih =>
      intro acc rest
      have hc : c ≠ '\n' := h c (List.mem_cons_self c l)
      rw [List.cons_append, findDelim, if_neg (by simp [hc]), ih (fun x hx => h x (List.mem_cons_of_mem c hx))]
      simp

theorem findDelim_nl_hit (acc rest : List Char) (h : rest.take 3 = ['-', '-', '-']) :
    findDelim acc ('\n' :: rest) = some (acc ++ ['\n'], rest.drop 3) := by
  rw [findDelim, if_pos ⟨rfl, h⟩]

theorem findDelim_nl_miss (acc : List Char) (c : Char) (rest : List Char) (h : c ≠ '-') :
    findDelim acc ('\n' :: c :: rest) = findDelim (acc ++ ['\n']) (c :: rest) := by
  rw [findDelim, if_neg]
  rintro ⟨-, htake⟩
  injection htake with h1 h2
  exact h h1

/-! ### `splitOnChar` lemmas -/

theorem splitOnChar_cons (sep c : Char) (l : List Char) :
    splitOnChar sep (c :: l) =
      (if c = sep then [] :: splitOnChar sep l
       else
         match splitOnChar sep l with
         | [] => [[c]]
         | a :: as => (c :: a) :: as) := rfl

theorem splitOnChar_ne_nil (sep : Char) (l : List Char) : splitOnChar sep l ≠ [] := by
  induction l with
  | nil => simp [splitOnChar]
  | cons c l ih =>
      rw [splitOnChar_cons]
      by_cases h : c = sep
      · simp [h]
      · rw [if_neg h]
        rcases hs : splitOnChar sep l with _ | ⟨a, as⟩ <;> simp

theorem splitOnChar_append_sep (sep : Char) (a b : List Char) (h : ∀ c ∈ a, c ≠ sep) :
    splitOnChar sep (a ++ sep :: b) = a :: splitOnChar sep b := by
  induction a with
  | nil => simp [splitOnChar_cons]
  | cons c a ih =>
      rw [List.cons_append, splitOnChar_cons,
        if_neg (h c (List.mem_cons_self c a)),
        ih (fun x hx => h x (List.mem_cons_of_mem c hx))]

theorem splitOnChar_no_sep (sep : Char) (a : List Char) (h : ∀ c ∈ a, c ≠ sep) :
    splitOnChar sep a = [a] := by
  induction a with
  | nil => rfl
  | cons c a ih =>
      rw [splitOnChar_cons, if_neg (h c (List.mem_cons_self c a)),
        ih (fun x hx => h x (List.mem_cons_of_mem c hx))]

/-! ### `breakColon` / `parseLine` lemmas -/

theorem breakColon_append (k v : List Char) (h : ∀ c ∈ k, c ≠ ':') :
    breakColon (k ++ ':' :: v) = some (k, v) := by
  induction k with
  | nil => simp [breakColon]
  | cons c k ih =>
      rw [List.cons_append, breakColon, if_neg (h c (List.mem_cons_self c k)),
        ih (fun x hx => h x (List.mem_cons_of_mem c hx))]
      rfl

/-! ### Template-shaped contents -/

/-- Join lines with a newline after each, before a suffix. -/
def joinNl (lines : List (List Char)) (suffix : List Char) : List Char :=
  lines.foldr (fun l r => l ++ '\n' :: r) suffix

theorem joinNl_nil (suffix : List Char) : joinNl [] suffix = suffix := rfl

theorem joinNl_cons (l : List Char) (lines : List (List Char)) (suffix : List Char) :
    joinNl (l :: lines) suffix = l ++ '\n' :: joinNl lines suffix := rfl

/-- Scanning a block of newline-free lines, none of which starts with a
dash, ends exactly at the closing `---`: the meta group is the block with
its surrounding newlines, the description group is everything after the
dashes. -/
theorem findDelim_join (tail : List Char) :
    ∀ (lines : List (List Char)) (acc : List Char),
      (∀ l ∈ lines, l ≠ [] ∧ l.head? ≠ some '-' ∧ ∀ c ∈ l, c ≠ '\n') →
      findDelim acc ('\n' :: joinNl lines ('-' :: '-' :: '-' :: tail)) =
        some (acc ++ ('\n' :: joinNl lines []), tail) := by
  intro lines
  induction lines with
  | nil =>
      intro acc _
      rw [joinNl_nil, joinNl_nil, findDelim_nl_hit acc ('-' :: '-' :: '-' :: tail) rfl]
      rfl
  | cons L lines ih =>
      intro acc h
      obtain ⟨hne, hhd, hnl⟩ := h L (List.mem_cons_self L lines)
      cases L with
      | nil => exact absurd rfl hne
      | cons c0 L' =>
          have hc0 : c0 ≠ '-' := by
            intro hc; exact hhd (by rw [hc]; rfl)
          rw [joinNl_cons, joinNl_cons, List.cons_append,
            findDelim_nl_miss acc c0 _ hc0, ← List.cons_append,
            findDelim_no_nl (c0 :: L') hnl _ _,
            ih _ (fun l hl => h l (List.mem_cons_of_mem _ hl))]
          simp

/-- Unfolding `parse_task` when the content starts with `---` and the
closing delimiter is found. -/
theorem parse_task_found (content : String) (rest meta desc : List Char)
    (hc : content.data = '-' :: '-' :: '-' :: rest)
    (hf : findDelim [] rest = some (meta, desc)) :
    parse_task content = parse_meta meta desc := by
  simp only [parse_task, hc, hf]

/-- Unfolding `parse_task` when the content starts with `---` but no
closing delimiter exists. -/
theorem parse_task_lost (content : String) (rest : List Char)
    (hc : content.data = '-' :: '-' :: '-' :: rest)
    (hf : findDelim [] rest = none) :
    parse_task content = .error .parseError := by
  simp only [parse_task, hc, hf]

/-! ### Line-level YAML lemmas -/

theorem parseLine_labeled (lab : List Char) (v : String)
    (hlab : ∀ c ∈ lab, c ≠ ':') (hlabs : stripChars lab = lab)
    (hv : stripChars v.data = v.data) :
    parseLine (lab ++ ':' :: ' ' :: v.data) = some (⟨lab⟩, classify v.data) := by
  unfold parseLine
  rw [breakColon_append lab _ hlab]
  show some ((⟨stripChars lab⟩ : String), classify (stripChars (' ' :: v.data))) =
    some ((⟨lab⟩ : String), classify v.data)
  rw [stripChars_cons_blank ' ' v.data (by decide), hv, hlabs]

theorem parseLine_nil : parseLine [] = none := rfl

/-- The value of a nonempty, non-numeric scalar. -/
theorem classify_str (v : String) (hne : v.data ≠ [])
    (hnd : ¬ v.data.all Char.isDigit = true) : classify v.data = .str v := by
  unfold classify
  rw [if_neg hne, if_neg hnd, strMk_data]

/-- The value written for an integer reads back as that integer. -/
theorem classify_natRepr (p : Nat) : classify (natRepr p).data = .int p := by
  unfold classify
  rw [if_neg (natRepr_ne_nil p), if_pos (natRepr_all_digit p), digitsToNat_natRepr]

/-- Normalization sends the scalar of a canonical value back to the
value itself: the empty value goes through null, a canonical digit run
through an integer, anything else through a string. -/
theorem normVal_classify (v : String)
    (hdig : v.data ≠ [] → v.data.all Char.isDigit = true → v = natRepr (digitsToNat v.data)) :
    normVal (classify v.data) = v := by
  unfold classify
  by_cases h0 : v.data = []
  · rw [if_pos h0]
    show "" = v
    conv_rhs => rw [← strMk_data v, h0]
  · rw [if_neg h0]
    by_cases hd : v.data.all Char.isDigit = true
    · rw [if_pos hd]
      show natRepr (digitsToNat v.data) = v
      exact (hdig h0 hd).symm
    · rw [if_neg hd]
      exact strMk_data v

/-! ## C3 — round-trip through the `add_task` template -/


theorem splitOnChar_joinNl (lines : List (List Char))
    (h : ∀ l ∈ lines, ∀ c ∈ l, c ≠ '\n') :
    splitOnChar '\n' (joinNl lines []) = lines ++ [[]] := by
  induction lines with
  | nil => rfl
  | cons L lines ih =>
      rw [joinNl_cons, splitOnChar_append_sep '\n' L _ (h L (List.mem_cons_self L lines)),
        ih (fun l hl => h l (List.mem_cons_of_mem L hl))]
      rfl

theorem parse_meta_eq (meta desc : List Char) (ps : List (String × YamlVal))
    (h : yamlLoad meta = ps) :
    parse_meta meta desc =
      (if ps = [] then .error .typeError
       else do
         let i ← normField ps "id"
         let t ← normField ps "title"
         let p ← normField ps "project"
         .ok { id := i, title := t, project := p,
               priority := lookupLast ps "priority",
               create := lookupLast ps "create",
               expire := lookupLast ps "expire",
               description := ⟨desc⟩, list := "" }) := by
  unfold parse_meta
  rw [h]

def plainVal (s : String) : Prop :=
  (∀ c ∈ s.data, c ≠ '\n') ∧ stripChars s.data = s.data

def canonicalVal (s : String) : Prop :=
  plainVal s ∧ (s.data ≠ [] → s.data.all Char.isDigit = true → s = natRepr (digitsToNat s.data))

def textVal (s : String) : Prop :=
  plainVal s ∧ s.data ≠ [] ∧ ¬ s.data.all Char.isDigit = true

theorem isDigit_not_blank (c : Char) (h : c.isDigit = true) : isBlankChar c = false := by
  unfold isBlankChar
  by_cases h1 : c = ' '
  · subst h1; exact absurd h (by decide)
  · by_cases h2 : c = '\t'
    · subst h2; exact absurd h (by decide)
    · simp [h1, h2]

theorem template_line_ok (lab : List Char) (v : String)
    (h1 : lab ≠ []) (h2 : lab.head? ≠ some '-') (h3 : ∀ c ∈ lab, c ≠ '\n')
    (hv : ∀ c ∈ v.data, c ≠ '\n') :
    (lab ++ ':' :: ' ' :: v.data) ≠ [] ∧ (lab ++ ':' :: ' ' :: v.data).head? ≠ some '-' ∧
      ∀ c ∈ lab ++ ':' :: ' ' :: v.data, c ≠ '\n' := by
  refine ⟨by simp, ?_, ?_⟩
  · cases lab with
    | nil => exact absurd rfl h1
    | cons c0 l => simpa using h2
  · intro c hc
    rcases List.mem_append.mp hc with hc | hc
    · exact h3 c hc
    · simp only [List.mem_cons] at hc
      rcases hc with rfl | rfl | hc
      · decide
      · decide
      · exact hv c hc

theorem c3_round_trip_amended (title project create expire tid : String) (p : Nat)
    (hT : canonicalVal title) (hP : canonicalVal project) (hI : canonicalVal tid)
    (hC : textVal create) (hE : textVal expire) :
    parse_task (add_task_meta title project p create expire tid) =
      .ok { id := tid, title := title, project := project,
            priority := some (.int p), create := some (.str create),
            expire := some (.str expire), description := "\n\n\n", list := "" } := by
  obtain ⟨⟨hTn, hTs⟩, hTd⟩ := hT
  obtain ⟨⟨hPn, hPs⟩, hPd⟩ := hP
  obtain ⟨⟨hIn, hIs⟩, hId⟩ := hI
  obtain ⟨⟨hCn, hCs⟩, hCe, hCd⟩ := hC
  obtain ⟨⟨hEn, hEs⟩, hEe, hEd⟩ := hE
  have hdata : (add_task_meta title project p create expire tid).data =
      '-' :: '-' :: '-' :: ('\n' :: joinNl
        ["title".data ++ ':' :: ' ' :: title.data,
         "project".data ++ ':' :: ' ' :: project.data,
         "priority".data ++ ':' :: ' ' :: (natRepr p).data,
         "create".data ++ ':' :: ' ' :: create.data,
         "expire".data ++ ':' :: ' ' :: expire.data,
         "id".data ++ ':' :: ' ' :: tid.data]
        ('-' :: '-' :: '-' :: ('\n' :: '\n' :: '\n' :: []))) := by
    simp [add_task_meta, joinNl, String.data_append]
  have hnatn : ∀ c ∈ (natRepr p).data, c ≠ '\n' := by
    intro c hc heq
    have := natRepr_all_digit p
    rw [List.all_eq_true] at this
    have := this c hc
    rw [heq] at this
    simp at this
  have hlines : ∀ l ∈
      ["title".data ++ ':' :: ' ' :: title.data,
       "project".data ++ ':' :: ' ' :: project.data,
       "priority".data ++ ':' :: ' ' :: (natRepr p).data,
       "create".data ++ ':' :: ' ' :: create.data,
       "expire".data ++ ':' :: ' ' :: expire.data,
       "id".data ++ ':' :: ' ' :: tid.data],
      l ≠ [] ∧ l.head? ≠ some '-' ∧ ∀ c ∈ l, c ≠ '\n' := by
    intro l hl
    simp only [List.mem_cons, List.not_mem_nil, or_false] at hl
    rcases hl with rfl | rfl | rfl | rfl | rfl | rfl
    · exact template_line_ok _ title (by decide) (by decide) (by decide) hTn
    · exact template_line_ok _ project (by decide) (by decide) (by decide) hPn
    · exact template_line_ok _ (natRepr p) (by decide) (by decide) (by decide) hnatn
    · exact template_line_ok _ create (by decide) (by decide) (by decide) hCn
    · exact template_line_ok _ expire (by decide) (by decide) (by decide) hEn
    · exact template_line_ok _ tid (by decide) (by decide) (by decide) hIn
  have hf := findDelim_join ('\n' :: '\n' :: '\n' :: []) _ [] hlines
  rw [parse_task_found _ _ _ _ hdata hf]
  have hyaml : yamlLoad ([] ++ ('\n' :: joinNl
      ["title".data ++ ':' :: ' ' :: title.data,
       "project".data ++ ':' :: ' ' :: project.data,
       "priority".data ++ ':' :: ' ' :: (natRepr p).data,
       "create".data ++ ':' :: ' ' :: create.data,
       "expire".data ++ ':' :: ' ' :: expire.data,
       "id".data ++ ':' :: ' ' :: tid.data] [])) =
      [("title", classify title.data), ("project", classify project.data),
       ("priority", classify (natRepr p).data), ("create", classify create.data),
       ("expire", classify expire.data), ("id", classify tid.data)] := by
    rw [List.nil_append]
    unfold yamlLoad
    rw [show splitOnChar '\n' ('\n' :: joinNl
        ["title".data ++ ':' :: ' ' :: title.data,
         "project".data ++ ':' :: ' ' :: project.data,
         "priority".data ++ ':' :: ' ' :: (natRepr p).data,
         "create".data ++ ':' :: ' ' :: create.data,
         "expire".data ++ ':' :: ' ' :: expire.data,
         "id".data ++ ':' :: ' ' :: tid.data] []) =
      [] :: (["title".data ++ ':' :: ' ' :: title.data,
       "project".data ++ ':' :: ' ' :: project.data,
       "priority".data ++ ':' :: ' ' :: (natRepr p).data,
       "create".data ++ ':' :: ' ' :: create.data,
       "expire".data ++ ':' :: ' ' :: expire.data,
       "id".data ++ ':' :: ' ' :: tid.data] ++ [[]]) from by
        rw [splitOnChar_cons, if_pos rfl, splitOnChar_joinNl _
          (fun l hl => (hlines l hl).2.2)]]
    have hstripnat : stripChars (natRepr p).data = (natRepr p).data := by
      apply stripChars_nonblank
      intro c hc
      have hall := natRepr_all_digit p
      rw [List.all_eq_true] at hall
      exact isDigit_not_blank c (hall c hc)
    have hL1 : parseLine ('t' :: 'i' :: 't' :: 'l' :: 'e' :: ':' :: ' ' ::title.data)
        = some ("title", classify title.data) :=
      parseLine_labeled "title".data title (by decide) (by decide) hTs
    have hL2 : parseLine ('p' :: 'r' :: 'o' :: 'j' :: 'e' :: 'c' :: 't' :: ':' :: ' ' ::project.data)
        = some ("project", classify project.data) :=
      parseLine_labeled "project".data project (by decide) (by decide) hPs
    have hL3 : parseLine ('p' :: 'r' :: 'i' :: 'o' :: 'r' :: 'i' :: 't' :: 'y' :: ':' :: ' ' ::(natRepr p).data)
        = some ("priority", classify (natRepr p).data) :=
      parseLine_labeled "priority".data (natRepr p) (by decide) (by decide) hstripnat
    have hL4 : parseLine ('c' :: 'r' :: 'e' :: 'a' :: 't' :: 'e' :: ':' :: ' ' ::create.data)
        = some ("create", classify create.data) :=
      parseLine_labeled "create".data create (by decide) (by decide) hCs
    have hL5 : parseLine ('e' :: 'x' :: 'p' :: 'i' :: 'r' :: 'e' :: ':' :: ' ' ::expire.data)
        = some ("expire", classify expire.data) :=
      parseLine_labeled "expire".data expire (by decide) (by decide) hEs
    have hL6 : parseLine ('i' :: 'd' :: ':' :: ' ' ::tid.data)
        = some ("id", classify tid.data) :=
      parseLine_labeled "id".data tid (by decide) (by decide) hIs
    simp only [List.cons_append, List.nil_append, List.filterMap_cons, parseLine_nil,
      hL1, hL2, hL3, hL4, hL5, hL6, List.filterMap_nil]
  rw [parse_meta_eq _ _ _ hyaml, if_neg (by simp)]
  have hid : normField
      [("title", classify title.data), ("project", classify project.data),
       ("priority", classify (natRepr p).data), ("create", classify create.data),
       ("expire", classify expire.data), ("id", classify tid.data)] "id"
      = .ok (normVal (classify tid.data)) := rfl
  have hti : normField
      [("title", classify title.data), ("project", classify project.data),
       ("priority", classify (natRepr p).data), ("create", classify create.data),
       ("expire", classify expire.data), ("id", classify tid.data)] "title"
      = .ok (normVal (classify title.data)) := rfl
  have hpr : normField
      [("title", classify title.data), ("project", classify project.data),
       ("priority", classify (natRepr p).data), ("create", classify create.data),
       ("expire", classify expire.data), ("id", classify tid.data)] "project"
      = .ok (normVal (classify project.data)) := rfl
  simp only [hid, hti, hpr, normVal_classify title hTd, normVal_classify project hPd,
    normVal_classify tid hId]
  show Except.ok _ = _
  rw [show lookupLast
      [("title", classify title.data), ("project", classify project.data),
       ("priority", classify (natRepr p).data), ("create", classify create.data),
       ("expire", classify expire.data), ("id", classify tid.data)] "priority"
      = some (classify (natRepr p).data) from rfl,
    show lookupLast
      [("title", classify title.data), ("project", classify project.data),
       ("priority", classify (natRepr p).data), ("create", classify create.data),
       ("expire", classify expire.data), ("id", classify tid.data)] "create"
      = some (classify create.data) from rfl,
    show lookupLast
      [("title", classify title.data), ("project", classify project.data),
       ("priority", classify (natRepr p).data), ("create", classify create.data),
       ("expire", classify expire.data), ("id", classify tid.data)] "expire"
      = some (classify expire.data) from rfl,
    classify_natRepr p, classify_str create hCe hCd, classify_str expire hEe hEd]


/-- C3 counterexample: the template always ends `---\n\n\n`, so the
round-tripped description is the three-newline string, not the empty
string; moreover the default empty `expire` reads back as null, not as
the empty string it was written from. -/
theorem c3_round_trip_counterexample :
    parse_task (add_task_meta "Buy milk" "home" 1 "2024-01-01 09:00" "" "abc123") =
      .ok { id := "abc123", title := "Buy milk", project := "home",
            priority := some (.int 1), create := some (.str "2024-01-01 09:00"),
            expire := some .null, description := "\n\n\n", list := "" } ∧
    ("\n\n\n" : String) ≠ "" := by
  constructor
  · have h1 : natRepr 1 = "1" := by
      rw [natRepr]
      rw [show natReprAux 1 [] = [digitChar 1] from by rw [natReprAux]; simp]
      rfl
    have h2 : add_task_meta "Buy milk" "home" 1 "2024-01-01 09:00" "" "abc123" =
        "---\ntitle: Buy milk\nproject: home\npriority: 1\ncreate: 2024-01-01 09:00\nexpire: \nid: abc123\n---\n\n\n" := by
      rw [add_task_meta, h1]
      decide
    rw [h2]
    decide
  · decide

/-- C3 witness: a concrete well-behaved record round-trips through the
template with the three-newline description. -/
theorem c3_round_trip_amended_witness :
    parse_task (add_task_meta "Read book" "home" 2 "2024-01-01 09:00" "2024-02-01 10:30" "abc123") =
      .ok { id := "abc123", title := "Read book", project := "home",
            priority := some (.int 2), create := some (.str "2024-01-01 09:00"),
            expire := some (.str "2024-02-01 10:30"), description := "\n\n\n", list := "" } :=
  c3_round_trip_amended "Read book" "home" "2024-01-01 09:00" "2024-02-01 10:30" "abc123" 2
    ⟨⟨by decide, by decide⟩, by decide⟩ ⟨⟨by decide, by decide⟩, by decide⟩
    ⟨⟨by decide, by decide⟩, by decide⟩ ⟨⟨by decide, by decide⟩, by decide, by decide⟩
    ⟨⟨by decide, by decide⟩, by decide, by decide⟩

/-! ## C5 — normalization of `id`, `title`, `project` -/

/-- Modelled from the spec: the normalization rule the spec states for
`id`/`title`/`project` — a null (empty) value becomes the empty string, a
value that parses as a pure integer becomes its decimal string
representation, every other value passes through unchanged. -/
def specNorm (v : String) : String :=
  if v = "" then ""
  else if v.data.all Char.isDigit then natRepr (digitsToNat v.data)
  else v

/-- The code's YAML-value normalization agrees with the spec's rule on
every scalar. -/
theorem normVal_classify_spec (v : String) : normVal (classify v.data) = specNorm v := by
  unfold classify specNorm
  by_cases h0 : v.data = []
  · have hv : v = "" := by
      conv_lhs => rw [← strMk_data v, h0]
    rw [if_pos h0, if_pos hv]
    rfl
  · have hv : ¬ v = "" := by
      intro h
      rw [h] at h0
      exact h0 rfl
    rw [if_neg h0, if_neg hv]
    by_cases hd : v.data.all Char.isDigit = true
    · rw [if_pos hd, if_pos hd]
      rfl
    · rw [if_neg hd, if_neg hd]
      exact strMk_data v

/-- C5 amended: for a two-delimiter file carrying `id`, `title`,
`project` lines, the parser yields exactly the spec's normalization of
each value (null → empty string, pure integer → decimal string, others
unchanged); a key that is entirely absent is *not* defaulted to the
empty string but raises `KeyError` (see the counterexample). -/
theorem c5_field_normalization (v1 v2 v3 dsc : String)
    (h1 : plainVal v1) (h2 : plainVal v2) (h3 : plainVal v3) :
    parse_task ("---\n" ++ "id: " ++ v1 ++ "\n" ++ "title: " ++ v2 ++ "\n" ++
        "project: " ++ v3 ++ "\n" ++ "---" ++ dsc) =
      .ok { id := specNorm v1, title := specNorm v2, project := specNorm v3,
            priority := none, create := none, expire := none,
            description := dsc, list := "" } := by
  obtain ⟨h1n, h1s⟩ := h1
  obtain ⟨h2n, h2s⟩ := h2
  obtain ⟨h3n, h3s⟩ := h3
  have hdata : ("---\n" ++ "id: " ++ v1 ++ "\n" ++ "title: " ++ v2 ++ "\n" ++
      "project: " ++ v3 ++ "\n" ++ "---" ++ dsc).data =
      '-' :: '-' :: '-' :: ('\n' :: joinNl
        ["id".data ++ ':' :: ' ' :: v1.data,
         "title".data ++ ':' :: ' ' :: v2.data,
         "project".data ++ ':' :: ' ' :: v3.data]
        ('-' :: '-' :: '-' :: dsc.data)) := by
    simp [joinNl, String.data_append]
  have hlines : ∀ l ∈
      ["id".data ++ ':' :: ' ' :: v1.data,
       "title".data ++ ':' :: ' ' :: v2.data,
       "project".data ++ ':' :: ' ' :: v3.data],
      l ≠ [] ∧ l.head? ≠ some '-' ∧ ∀ c ∈ l, c ≠ '\n' := by
    intro l hl
    simp only [List.mem_cons, List.not_mem_nil, or_false] at hl
    rcases hl with rfl | rfl | rfl
    · exact template_line_ok _ v1 (by decide) (by decide) (by decide) h1n
    · exact template_line_ok _ v2 (by decide) (by decide) (by decide) h2n
    · exact template_line_ok _ v3 (by decide) (by decide) (by decide) h3n
  have hf := findDelim_join dsc.data _ [] hlines
  rw [parse_task_found _ _ _ _ hdata hf]
  have hyaml : yamlLoad ([] ++ ('\n' :: joinNl
      ["id".data ++ ':' :: ' ' :: v1.data,
       "title".data ++ ':' :: ' ' :: v2.data,
       "project".data ++ ':' :: ' ' :: v3.data] [])) =
      [("id", classify v1.data), ("title", classify v2.data),
       ("project", classify v3.data)] := by
    rw [List.nil_append]
    unfold yamlLoad
    rw [show splitOnChar '\n' ('\n' :: joinNl
        ["id".data ++ ':' :: ' ' :: v1.data,
         "title".data ++ ':' :: ' ' :: v2.data,
         "project".data ++ ':' :: ' ' :: v3.data] []) =
      [] :: (["id".data ++ ':' :: ' ' :: v1.data,
       "title".data ++ ':' :: ' ' :: v2.data,
       "project".data ++ ':' :: ' ' :: v3.data] ++ [[]]) from by
        rw [splitOnChar_cons, if_pos rfl, splitOnChar_joinNl _
          (fun l hl => (hlines l hl).2.2)]]
    have hL1 : parseLine ('i' :: 'd' :: ':' :: ' ' ::v1.data) = some ("id", classify v1.data) :=
      parseLine_labeled "id".data v1 (by decide) (by decide) h1s
    have hL2 : parseLine ('t' :: 'i' :: 't' :: 'l' :: 'e' :: ':' :: ' ' ::v2.data)
        = some ("title", classify v2.data) :=
      parseLine_labeled "title".data v2 (by decide) (by decide) h2s
    have hL3 : parseLine ('p' :: 'r' :: 'o' :: 'j' :: 'e' :: 'c' :: 't' :: ':' :: ' ' ::v3.data)
        = some ("project", classify v3.data) :=
      parseLine_labeled "project".data v3 (by decide) (by decide) h3s
    simp only [List.cons_append, List.nil_append, List.filterMap_cons, parseLine_nil,
      hL1, hL2, hL3, List.filterMap_nil]
  rw [parse_meta_eq _ _ _ hyaml, if_neg (by simp)]
  have hid : normField [("id", classify v1.data), ("title", classify v2.data),
      ("project", classify v3.data)] "id" = .ok (normVal (classify v1.data)) := rfl
  have hti : normField [("id", classify v1.data), ("title", classify v2.data),
      ("project", classify v3.data)] "title" = .ok (normVal (classify v2.data)) := rfl
  have hpr : normField [("id", classify v1.data), ("title", classify v2.data),
      ("project", classify v3.data)] "project" = .ok (normVal (classify v3.data)) := rfl
  simp only [hid, hti, hpr, normVal_classify_spec]
  show Except.ok _ = _
  rw [show lookupLast [("id", classify v1.data), ("title", classify v2.data),
      ("project", classify v3.data)] "priority" = none from rfl,
    show lookupLast [("id", classify v1.data), ("title", classify v2.data),
      ("project", classify v3.data)] "create" = none from rfl,
    show lookupLast [("id", classify v1.data), ("title", classify v2.data),
      ("project", classify v3.data)] "expire" = none from rfl,
    strMk_data dsc]

/-- C5 counterexample: a well-delimited file whose metadata block has no
`id` key does not produce a record with an empty id — the parser raises
`KeyError` instead. -/
theorem c5_missing_key_counterexample :
    parse_task "---\ntitle: a\nproject: b\n---\nrest" = .error (.keyError "id") := by
  decide

/-- C5 witness: a leading-zero numeric id collapses to its decimal form,
a plain numeric title stays numeric-shaped, an empty project becomes the
empty string. -/
theorem c5_field_normalization_witness :
    parse_task ("---\n" ++ "id: " ++ "007" ++ "\n" ++ "title: " ++ "42" ++ "\n" ++
        "project: " ++ "" ++ "\n" ++ "---" ++ "\nx") =
      .ok { id := specNorm "007", title := specNorm "42", project := specNorm "",
            priority := none, create := none, expire := none,
            description := "\nx", list := "" } :=
  c5_field_normalization "007" "42" "" "\nx"
    ⟨by decide, by decide⟩ ⟨by decide, by decide⟩ ⟨by decide, by decide⟩

/-! ## C9 — a missing required key aborts the whole scan -/

/-- Shared concrete task-file contents. -/
def goodContent : String :=
  "---\ntitle: hi\nproject: p\npriority: 1\ncreate: 2024-01-01 09:00\nexpire: \nid: g1\n---\n\nbody"

def badDelim : String := "no front matter at all"

def badKey : String := "---\ntitle: x\n---\n"

/-- If some walked file raises a `KeyError`, the per-state scan loop
ends in an error (it is not caught like `ParseError`). -/
theorem scanFiles_aborts (tag : String) :
    ∀ (fl : List (List String × String × String)) (acc : List TaskR),
      (∃ e ∈ fl, ∃ k, parse_task e.2.2 = .error (.keyError k)) →
      ∃ err, scanFiles tag fl acc = .error err := by
  intro fl
  induction fl with
  | nil =>
      intro acc h
      simp at h
  | cons f fl ih =>
      intro acc h
      rcases h with ⟨e, he, k, hk⟩
      rcases List.mem_cons.mp he with rfl | he'
      · rcases e with ⟨p, n, c⟩
        refine ⟨.keyError k, ?_⟩
        simp only [scanFiles, hk]
      · rcases f with ⟨p, n, c⟩
        cases hc : parse_task c with
        | ok t =>
            rcases ih (acc ++ [{ t with list := tag }]) ⟨e, he', k, hk⟩ with ⟨err, herr⟩
            exact ⟨err, by simp only [scanFiles, hc]; exact herr⟩
        | error pe =>
            cases pe with
            | parseError =>
                rcases ih acc ⟨e, he', k, hk⟩ with ⟨err, herr⟩
                exact ⟨err, by simp only [scanFiles, hc]; exact herr⟩
            | keyError k2 => exact ⟨.keyError k2, by simp only [scanFiles, hc]⟩
            | typeError => exact ⟨.typeError, by simp only [scanFiles, hc]⟩

/-- C9: a two-delimiter file whose metadata block lacks the required
`id` key makes the parser raise `KeyError "id"` (not `ParseError`), and
because the scanner's handler catches only `ParseError`, any walked file
whose parse raises a `KeyError` makes the whole scan end in an error
even when a well-formed file is present. -/
theorem c9_missing_key_aborts_scan :
    (∀ (v2 v3 dsc : String), plainVal v2 → plainVal v3 →
      parse_task ("---\n" ++ "title: " ++ v2 ++ "\n" ++ "project: " ++ v3 ++ "\n" ++
          "---" ++ dsc) = .error (.keyError "id")) ∧
    (∀ (g b : String) (k : String), parse_task b = .error (.keyError k) →
      ∃ err, scanTasks (.dir "todo" (.file "a.txt" g (.file "b.txt" b .nil)) .nil) =
        .error err) := by
  constructor
  · intro v2 v3 dsc h2 h3
    obtain ⟨h2n, h2s⟩ := h2
    obtain ⟨h3n, h3s⟩ := h3
    have hdata : ("---\n" ++ "title: " ++ v2 ++ "\n" ++ "project: " ++ v3 ++ "\n" ++
        "---" ++ dsc).data =
        '-' :: '-' :: '-' :: ('\n' :: joinNl
          ["title".data ++ ':' :: ' ' :: v2.data,
           "project".data ++ ':' :: ' ' :: v3.data]
          ('-' :: '-' :: '-' :: dsc.data)) := by
      simp [joinNl, String.data_append]
    have hlines : ∀ l ∈
        ["title".data ++ ':' :: ' ' :: v2.data,
         "project".data ++ ':' :: ' ' :: v3.data],
        l ≠ [] ∧ l.head? ≠ some '-' ∧ ∀ c ∈ l, c ≠ '\n' := by
      intro l hl
      simp only [List.mem_cons, List.not_mem_nil, or_false] at hl
      rcases hl with rfl | rfl
      · exact template_line_ok _ v2 (by decide) (by decide) (by decide) h2n
      · exact template_line_ok _ v3 (by decide) (by decide) (by decide) h3n
    have hf := findDelim_join dsc.data _ [] hlines
    rw [parse_task_found _ _ _ _ hdata hf]
    have hyaml : yamlLoad ([] ++ ('\n' :: joinNl
        ["title".data ++ ':' :: ' ' :: v2.data,
         "project".data ++ ':' :: ' ' :: v3.data] [])) =
        [("title", classify v2.data), ("project", classify v3.data)] := by
      rw [List.nil_append]
      unfold yamlLoad
      rw [show splitOnChar '\n' ('\n' :: joinNl
          ["title".data ++ ':' :: ' ' :: v2.data,
           "project".data ++ ':' :: ' ' :: v3.data] []) =
        [] :: (["title".data ++ ':' :: ' ' :: v2.data,
         "project".data ++ ':' :: ' ' :: v3.data] ++ [[]]) from by
          rw [splitOnChar_cons, if_pos rfl, splitOnChar_joinNl _
            (fun l hl => (hlines l hl).2.2)]]
      have hL2 : parseLine ('t' :: 'i' :: 't' :: 'l' :: 'e' :: ':' :: ' ' ::v2.data)
          = some ("title", classify v2.data) :=
        parseLine_labeled "title".data v2 (by decide) (by decide) h2s
      have hL3 : parseLine ('p' :: 'r' :: 'o' :: 'j' :: 'e' :: 'c' :: 't' :: ':' :: ' ' ::v3.data)
          = some ("project", classify v3.data) :=
        parseLine_labeled "project".data v3 (by decide) (by decide) h3s
      simp only [List.cons_append, List.nil_append, List.filterMap_cons, parseLine_nil,
        hL2, hL3, List.filterMap_nil]
    rw [parse_meta_eq _ _ _ hyaml, if_neg (by simp)]
    rfl
  · intro g b k hb
    obtain ⟨err, herr⟩ := scanFiles_aborts "todo"
      [(["todo"], "a.txt", g), (["todo"], "b.txt", b)] []
      ⟨(["todo"], "b.txt", b), by simp, k, hb⟩
    refine ⟨err, ?_⟩
    unfold scanTasks
    rw [show walkState (FST.dir "todo" (.file "a.txt" g (.file "b.txt" b .nil)) .nil) "todo" =
        [(["todo"], "a.txt", g), (["todo"], "b.txt", b)] from rfl, herr]
    rfl

/-- C9 witness: the concrete missing-`id` file raises `KeyError "id"`,
and a scan over a directory holding it next to a well-formed file ends
in an error. -/
theorem c9_missing_key_aborts_scan_witness :
    parse_task ("---\n" ++ "title: " ++ "a" ++ "\n" ++ "project: " ++ "b" ++ "\n" ++
        "---" ++ "\nzz") = .error (.keyError "id") ∧
    (∃ err, scanTasks (.dir "todo" (.file "a.txt" goodContent
        (.file "b.txt" badKey .nil)) .nil) = .error err) :=
  ⟨c9_missing_key_aborts_scan.1 "a" "b" "\nzz" ⟨by decide, by decide⟩ ⟨by decide, by decide⟩,
   c9_missing_key_aborts_scan.2 goodContent badKey "id" (by decide)⟩

/-! ## C4 — when the delimiter search succeeds -/

theorem findDelim_none_iff (l : List Char) : ∀ acc,
    findDelim acc l = none ↔ ¬ ∃ a b, l = a ++ '\n' :: '-' :: '-' :: '-' :: b := by
  induction l with
  | nil =>
      intro acc
      refine ⟨fun _ => ?_, fun _ => rfl⟩
      rintro ⟨a, b, hab⟩
      cases a with
      | nil => exact List.noConfusion hab
      | cons x xs => exact List.noConfusion hab
  | cons c rest ih =>
      intro acc
      rw [findDelim]
      by_cases hguard : c = '\n' ∧ rest.take 3 = ['-', '-', '-']
      · rw [if_pos hguard]
        have hex : ∃ a b, c :: rest = a ++ '\n' :: '-' :: '-' :: '-' :: b := by
          refine ⟨[], rest.drop 3, ?_⟩
          rw [List.nil_append, hguard.1]
          congr 1
          conv_lhs => rw [← List.take_append_drop 3 rest, hguard.2]
          rfl
        exact ⟨fun h => absurd h (by simp), fun h => absurd hex h⟩
      · rw [if_neg hguard, ih (acc ++ [c])]
        constructor
        · rintro h ⟨a, b, hab⟩
          cases a with
          | nil =>
              rw [List.nil_append] at hab
              injection hab with hc hrest
              exact hguard ⟨hc, by rw [hrest]; rfl⟩
          | cons a0 a' =>
              rw [List.cons_append] at hab
              injection hab with hc hrest
              exact h ⟨a', b, hrest⟩
        · rintro h ⟨a, b, hab⟩
          exact h ⟨c :: a, b, by rw [hab]; rfl⟩

theorem findDelim_some_decomp (l : List Char) : ∀ (acc m d : List Char),
    findDelim acc l = some (m, d) →
    ∃ m', m = acc ++ m' ++ ['\n'] ∧ l = m' ++ '\n' :: '-' :: '-' :: '-' :: d := by
  induction l with
  | nil => intro acc m d h; exact Option.noConfusion h
  | cons c rest ih =>
      intro acc m d h
      rw [findDelim] at h
      by_cases hguard : c = '\n' ∧ rest.take 3 = ['-', '-', '-']
      · rw [if_pos hguard] at h
        have hp := Option.some.inj h
        have hm : acc ++ [c] = m := congrArg Prod.fst hp
        have hd : rest.drop 3 = d := congrArg Prod.snd hp
        refine ⟨[], ?_, ?_⟩
        · rw [← hm, hguard.1]
          simp
        · rw [List.nil_append, hguard.1, ← hd]
          congr 1
          conv_lhs => rw [← List.take_append_drop 3 rest, hguard.2]
          rfl
      · rw [if_neg hguard] at h
        obtain ⟨m', hm, hl⟩ := ih (acc ++ [c]) m d h
        exact ⟨c :: m', by rw [hm]; simp, by rw [hl]; rfl⟩

theorem parse_task_not_dash (s : String)
    (h : ∀ rest, s.data ≠ '-' :: '-' :: '-' :: rest) :
    parse_task s = .error .parseError := by
  unfold parse_task
  split
  · rename_i rest heq
    exact absurd heq (h rest)
  · rfl

/-- The three possible outcomes of the post-delimiter stage: `TypeError`
on a non-mapping, `KeyError` on a missing required key, or a record
whose description is the description group. -/
theorem parse_meta_cases (m d : List Char) :
    parse_meta m d = .error .typeError ∨
    (∃ k, parse_meta m d = .error (.keyError k)) ∨
    (∃ i t p, parse_meta m d =
      .ok { id := i, title := t, project := p,
            priority := lookupLast (yamlLoad m) "priority",
            create := lookupLast (yamlLoad m) "create",
            expire := lookupLast (yamlLoad m) "expire",
            description := ⟨d⟩, list := "" }) := by
  unfold parse_meta
  by_cases hps : yamlLoad m = []
  · left
    simp [hps]
  · simp only [if_neg hps]
    unfold normField
    rcases lookupLast (yamlLoad m) "id" with _ | v1
    · exact Or.inr (Or.inl ⟨"id", rfl⟩)
    · rcases lookupLast (yamlLoad m) "title" with _ | v2
      · exact Or.inr (Or.inl ⟨"title", rfl⟩)
      · rcases lookupLast (yamlLoad m) "project" with _ | v3
        · exact Or.inr (Or.inl ⟨"project", rfl⟩)
        · exact Or.inr (Or.inr ⟨normVal v1, normVal v2, normVal v3, rfl⟩)

theorem parse_meta_ne_parseError (m d : List Char) :
    parse_meta m d ≠ .error .parseError := by
  rcases parse_meta_cases m d with h | ⟨k, h⟩ | ⟨i, t, p, h⟩ <;> rw [h] <;> simp

theorem parse_meta_ok_desc (m d : List Char) (t : TaskR)
    (h : parse_meta m d = .ok t) : t.description = ⟨d⟩ := by
  rcases parse_meta_cases m d with h' | ⟨k, h'⟩ | ⟨i, tt, pp, h'⟩
  · rw [h'] at h
    exact Except.noConfusion h
  · rw [h'] at h
    exact Except.noConfusion h
  · rw [h'] at h
    rw [← Except.ok.inj h]

/-- C4 amended: the parser avoids `ParseError` exactly when the content
*starts* with `---` (the regex is anchored at position zero; the dashes
need not occupy a whole line) and a line start followed by `---` occurs
later; on success the description is everything after that second `---`.
A `---` delimiter line that is not at the very start of the file does
not count (see the counterexample). -/
theorem c4_delimiter_contract (s : String) :
    ((parse_task s ≠ .error .parseError) ↔
      (∃ rest a b, s.data = '-' :: '-' :: '-' :: rest ∧
        rest = a ++ '\n' :: '-' :: '-' :: '-' :: b)) ∧
    (∀ t, parse_task s = .ok t →
      ∃ m', s.data =
        '-' :: '-' :: '-' :: (m' ++ '\n' :: '-' :: '-' :: '-' :: t.description.data)) := by
  constructor
  · constructor
    · intro hne
      by_cases hshape : ∃ rest, s.data = '-' :: '-' :: '-' :: rest
      · obtain ⟨rest, hr⟩ := hshape
        by_cases hex : ∃ a b, rest = a ++ '\n' :: '-' :: '-' :: '-' :: b
        · obtain ⟨a, b, hab⟩ := hex
          exact ⟨rest, a, b, hr, hab⟩
        · have hn : findDelim [] rest = none := (findDelim_none_iff rest []).mpr hex
          exact absurd (parse_task_lost s rest hr hn) hne
      · push_neg at hshape
        exact absurd (parse_task_not_dash s hshape) hne
    · rintro ⟨rest, a, b, hr, hab⟩
      rcases hfd : findDelim [] rest with _ | ⟨m, dd⟩
      · exact absurd ((findDelim_none_iff rest []).mp hfd ⟨a, b, hab⟩) (fun h => h)
      · rw [parse_task_found s rest m dd hr hfd]
        exact parse_meta_ne_parseError m dd
  · intro t ht
    by_cases hshape : ∃ rest, s.data = '-' :: '-' :: '-' :: rest
    · obtain ⟨rest, hr⟩ := hshape
      rcases hfd : findDelim [] rest with _ | ⟨m, dd⟩
      · rw [parse_task_lost s rest hr hfd] at ht
        exact Except.noConfusion ht
      · rw [parse_task_found s rest m dd hr hfd] at ht
        have hdesc := parse_meta_ok_desc m dd t ht
        obtain ⟨m', _, hrest⟩ := findDelim_some_decomp rest [] m dd hfd
        refine ⟨m', ?_⟩
        rw [hr, hrest, hdesc]
    · push_neg at hshape
      rw [parse_task_not_dash s hshape] at ht
      exact Except.noConfusion ht

/-- A file containing the claimed structure — a solely-`---` line,
metadata, a second solely-`---` line — but with a newline before the
first delimiter. -/
def c4content : String := "\n---\nid: a\ntitle: b\nproject: c\n---\n"

/-- C4 counterexample: `c4content` contains, in order, a line consisting
solely of `---` (line index 1), a metadata block, and a second
solely-`---` line (index 5), yet the parser raises `ParseError`, because
the regex is anchored at the very start of the content. -/
theorem c4_delimiter_counterexample :
    (splitOnChar '\n' c4content.data).get? 1 = some ['-', '-', '-'] ∧
    (splitOnChar '\n' c4content.data).get? 5 = some ['-', '-', '-'] ∧
    parse_task c4content = .error .parseError := by
  decide

/-- C4 witness: a content starting with `---` and containing a second
line-start `---` parses without `ParseError`, and the description of the
parsed record is exactly what follows the second `---`. -/
def c4task : TaskR :=
  { id := "x", title := "y", project := "z", priority := none, create := none, expire := none, description := "\nd", list := "" }

theorem c4_delimiter_contract_witness :
    (parse_task "---\nid: x\ntitle: y\nproject: z\n---\nd" ≠ .error .parseError) ∧
    (∃ m', ("---\nid: x\ntitle: y\nproject: z\n---\nd" : String).data =
      '-' :: '-' :: '-' :: (m' ++ '\n' :: '-' :: '-' :: '-' :: c4task.description.data)) :=
  ⟨(c4_delimiter_contract "---\nid: x\ntitle: y\nproject: z\n---\nd").1.mpr
    ⟨"\nid: x\ntitle: y\nproject: z\n---\nd".data,
     "\nid: x\ntitle: y\nproject: z".data, "\nd".data, by decide, by decide⟩,
   (c4_delimiter_contract "---\nid: x\ntitle: y\nproject: z\n---\nd").2
     c4task (by decide)⟩

/-! ## C7 — wide-character display width in the renderer -/

/-- Modelled from the spec: the display width of a string is its
character count plus one extra unit for every character classified as
wide. -/
def specDisplayWidth (s : String) : Nat :=
  s.length + (s.data.filter eastAsianWideW).length

theorem wide_chars_filter (s : String) :
    wide_chars s = (s.data.filter eastAsianWideW).length := by
  unfold wide_chars
  have haux : ∀ (l : List Char) (n : Nat),
      l.foldl (fun n c => n + (if eastAsianWideW c then 1 else 0)) n =
        n + (l.filter eastAsianWideW).length := by
    intro l
    induction l with
    | nil => intro n; simp
    | cons c l ih =>
        intro n
        rw [List.foldl_cons, ih, List.filter_cons]
        by_cases h : eastAsianWideW c = true
        · simp only [h, if_pos, List.length_cons]
          omega
        · simp only [h, if_neg, Bool.false_eq_true, if_false]
          omega
  rw [haux]
  omega

/-- C7: the quantity the renderer uses to size the `title` and `project`
columns is exactly the spec's display width (character count plus one
per wide character); the two wide glyphs of "任务" give display width 4
(not 2); and the per-row `title` cell width is the column width reduced
by the number of wide characters of that row's title. -/
theorem c7_display_width :
    (∀ s : String, s.length + wide_chars s = specDisplayWidth s) ∧
    wide_chars "任务" = 2 ∧ specDisplayWidth "任务" = 4 ∧
    (∀ tasks : List TaskR, titleMaxWidth tasks =
      ("title".length :: tasks.map (fun t => specDisplayWidth t.title)).foldr max 0) ∧
    (∀ tasks : List TaskR, projectMaxWidth tasks =
      ("project".length :: tasks.map (fun t => specDisplayWidth t.project)).foldr max 0) ∧
    (∀ (tm pm : Nat) (verbose : Bool) (t : TaskR),
      (rowWidths (fmt_spec tm pm verbose) t).get? 2 = some (tm + 1 - wide_chars t.title)) := by
  refine ⟨?_, by decide, by decide, ?_, ?_, ?_⟩
  · intro s
    rw [wide_chars_filter]
    rfl
  · intro tasks
    unfold titleMaxWidth specDisplayWidth
    simp [wide_chars_filter]
  · intro tasks
    unfold projectMaxWidth specDisplayWidth
    simp [wide_chars_filter]
  · intro tm pm verbose t
    cases verbose <;> rfl

/-! ## C8 — a ParseError file is skipped, everything else is kept -/

/-- The record `goodContent` parses to. -/
def goodTask : TaskR :=
  { id := "g1", title := "hi", project := "p", priority := some (.int 1), create := some (.str "2024-01-01 09:00"), expire := some .null, description := "\n\nbody", list := "" }

/-- C8: when every walked file either parses or raises `ParseError`, the
per-state scan returns exactly the parsed records, in walk order, tagged
with the state — `ParseError` files are skipped and abort nothing; in
particular a directory holding one well-formed and one delimiter-broken
file scans to exactly the one well-formed record. -/
theorem c8_parse_error_isolated :
    (∀ (tag : String) (fl : List (List String × String × String)) (acc : List TaskR),
      (∀ e ∈ fl, (∃ t, parse_task e.2.2 = .ok t) ∨ parse_task e.2.2 = .error .parseError) →
      scanFiles tag fl acc = .ok (acc ++ fl.filterMap (fun e =>
        match parse_task e.2.2 with
        | .ok t => some { t with list := tag }
        | .error _ => none))) ∧
    (∀ (g b : String) (t : TaskR), parse_task g = .ok t →
      parse_task b = .error .parseError →
      scanTasks (.dir "todo" (.file "a.txt" g (.file "b.txt" b .nil)) .nil) =
        .ok [{ t with list := "todo" }]) := by
  have part1 : ∀ (tag : String) (fl : List (List String × String × String))
      (acc : List TaskR),
      (∀ e ∈ fl, (∃ t, parse_task e.2.2 = .ok t) ∨ parse_task e.2.2 = .error .parseError) →
      scanFiles tag fl acc = .ok (acc ++ fl.filterMap (fun e =>
        match parse_task e.2.2 with
        | .ok t => some { t with list := tag }
        | .error _ => none)) := by
    intro tag fl
    induction fl with
    | nil => intro acc _; simp [scanFiles]
    | cons e fl ih =>
        intro acc h
        rcases h e (List.mem_cons_self e fl) with ⟨t, ht⟩ | hpe
        · rcases e with ⟨p, n, c⟩
          simp only at ht
          rw [List.filterMap_cons]
          simp only [ht]
          rw [show scanFiles tag ((p, n, c) :: fl) acc =
              scanFiles tag fl (acc ++ [{ t with list := tag }]) from by
            simp only [scanFiles, ht]]
          rw [ih _ (fun e he => h e (List.mem_cons_of_mem _ he))]
          simp
        · rcases e with ⟨p, n, c⟩
          simp only at hpe
          rw [List.filterMap_cons]
          simp only [hpe]
          rw [show scanFiles tag ((p, n, c) :: fl) acc = scanFiles tag fl acc from by
            simp only [scanFiles, hpe]]
          exact ih _ (fun e he => h e (List.mem_cons_of_mem _ he))
  refine ⟨part1, ?_⟩
  intro g b t hg hb
  unfold scanTasks
  rw [show walkState (FST.dir "todo" (.file "a.txt" g (.file "b.txt" b .nil)) .nil) "todo" =
      [(["todo"], "a.txt", g), (["todo"], "b.txt", b)] from rfl,
    show walkState (FST.dir "todo" (.file "a.txt" g (.file "b.txt" b .nil)) .nil) "today" =
      [] from rfl,
    part1 "todo" [(["todo"], "a.txt", g), (["todo"], "b.txt", b)] []
      (by
        intro e he
        simp only [List.mem_cons, List.not_mem_nil, or_false] at he
        rcases he with rfl | rfl
        · exact Or.inl ⟨t, hg⟩
        · exact Or.inr hb)]
  simp only [List.filterMap_cons, hg, hb, List.filterMap_nil, List.nil_append]
  rfl

/-- C8 witness: the concrete well-formed file is returned, the concrete
delimiter-broken file is skipped, and the scan does not abort. -/
theorem c8_parse_error_isolated_witness :
    scanTasks (.dir "todo" (.file "a.txt" goodContent (.file "b.txt" badDelim .nil)) .nil) =
      .ok [{ goodTask with list := "todo" }] :=
  c8_parse_error_isolated.2 goodContent badDelim goodTask (by decide) (by decide)

end TodoCli
